import Mathlib

/-!
Verification of the `morristown` terminal prompting library (`src/lib.rs`).

The library reads lines from standard input, normalizes them (trim then
uppercase), parses and validates them, and loops until a valid value is
obtained.  We embed it shallowly:

* each prompt loop runs over a finite list of raw lines — the lines available
  to that run — and yields `none` when they are exhausted without an
  acceptance; the underlying stream's end-of-input behavior (`Ok(0)`: an
  empty line, not a panic) and its fatal I/O-error behavior (the `expect`
  panic) are modelled separately by `ReadOutcome`, `read_line` and
  `runLoopStream`;
* everything a function `println!`s is collected, in order, in a `List String`
  returned next to the accepted value;
* the generic numeric type parameter `T` of the Rust functions becomes a type
  parameter `α` together with an explicit parse function
  `parse : String → Option α` (Rust `FromStr`) and a formatter
  `fmt : α → String` (Rust `Debug`, which coincides with `Display` on the
  integer types the library is instantiated at).
-/

namespace Morristown

/-- ASCII whitespace, the characters `str::trim` removes on ASCII input
(space, tab, line feed, vertical tab, form feed, carriage return). -/
def isWs (c : Char) : Bool :=
  c.toNat = 32 || c.toNat = 9 || c.toNat = 10 || c.toNat = 11 ||
    c.toNat = 12 || c.toNat = 13

/-- Uppercase one ASCII character, modelling `str::to_uppercase` on the ASCII
fragment the library's fixed tokens live in. -/
def upperChar (c : Char) : Char :=
  if 97 ≤ c.toNat ∧ c.toNat ≤ 122 then Char.ofNat (c.toNat - 32) else c

/-- The normalization `read_line` applies to every raw input line
(lib.rs line 74): `input.trim().to_uppercase()`. -/
def normalize (s : String) : String :=
  String.mk ((((s.data.dropWhile isWs).reverse.dropWhile isWs).reverse).map upperChar)

/-- ASCII decimal digit. -/
def isAsciiDigit (c : Char) : Bool :=
  48 ≤ c.toNat && c.toNat ≤ 57

/-- Numeric value of a list of ASCII digits, most significant first. -/
def digitsToNat (l : List Char) : Nat :=
  l.foldl (fun acc c => acc * 10 + (c.toNat - 48)) 0

/-- Parse a nonempty, all-digit character list to its value; anything else is
a parse failure. -/
def parseNatDigits (l : List Char) : Option Nat :=
  if l ≠ [] ∧ l.all isAsciiDigit = true then some (digitsToNat l) else none

/-- Rust's `u8::from_str`, used by `read_number::<u8>()` in `prompt_bool`
(lib.rs line 95): an optional leading `+` sign (no `-` sign is accepted for
an unsigned type), then at least one decimal digit, and the value must fit in
8 bits, i.e. be at most 255; overflow is a parse error. -/
def parseU8 (s : String) : Option Nat :=
  match parseNatDigits (if s.data.head? = some '+' then s.data.tail else s.data) with
  | some n => if n ≤ 255 then some n else none
  | none => none

/-- Outcome of one iteration of a prompt loop: either the attempt is accepted
with a value, or it is rejected after printing the given diagnostic lines
(in this library, always exactly one). -/
inductive StepResult (α : Type) where
  | accept : α → StepResult α
  | reject : List String → StepResult α
deriving DecidableEq, Repr

/-- The retry loop shared by every prompt of lib.rs, run over the finite list
of lines available to the run: print the message, read one raw line, run the
attempt on it; on rejection print the diagnostics and start over with the
next line.  The result is `none` when the list is exhausted before any
attempt is accepted — no acceptance is observable within the supplied lines.
The second component of the result collects every printed line (message
echoes and diagnostics) in order.  The underlying stream's end-of-input and
I/O-error behavior is modelled by `ReadOutcome`, `read_line` and
`runLoopStream` below. -/
def runLoop {α : Type} (msg : String) (step : String → StepResult α) :
    List String → Option (α × List String)
  | [] => none
  | line :: rest =>
    match step line with
    | .accept v => some (v, [msg])
    | .reject out =>
      (runLoop msg step rest).map fun p => (p.1, msg :: out ++ p.2)

/-- One underlying call of `io::stdin().read_line(&mut input)` (lib.rs line
71): either it fills the buffer with a line (`Ok` with a positive count), or
it reads nothing because the stream is at end of input — a closed stdin —
and returns `Ok(0)`, or it fails with an I/O error (`Err`). -/
inductive ReadOutcome where
  | line : String → ReadOutcome
  | eof : ReadOutcome
  | ioError : ReadOutcome
deriving DecidableEq, Repr

/-- `read_line` (lib.rs lines 69-75) as a function of the underlying read's
outcome.  Its `.expect` panics — modelled by `none` — only when the
underlying call returns `Err`.  At end of input the call returns `Ok(0)`
without touching the empty buffer, so `read_line` returns
`"".trim().to_uppercase()`, the empty string: a closed stream is not fatal. -/
def read_line : ReadOutcome → Option String
  | .line raw => some (normalize raw)
  | .eof => some (normalize "")
  | .ioError => none

/-- Observable state of one run of a prompt loop over a finite list of
underlying read outcomes: a value was accepted, the process aborted in
`read_line`'s `expect`, or the supplied outcomes ran out with the loop still
iterating. -/
inductive RunResult (α : Type) where
  | accepted : α → RunResult α
  | panicked : RunResult α
  | running : RunResult α
deriving DecidableEq, Repr

/-- The prompt retry loop of lib.rs driven by the outcomes of the underlying
reads.  An `Err` outcome aborts in `read_line`'s `expect`; an end-of-input
outcome hands the loop body the empty line (the content `read_line` returns
there) like any other input; otherwise the raw line is handed to the attempt,
which applies `read_line`'s normalization exactly as in `runLoop`. -/
def runLoopStream {α : Type} (step : String → StepResult α) :
    List ReadOutcome → RunResult α
  | [] => .running
  | o :: rest =>
    match o with
    | .ioError => .panicked
    | .line raw =>
      match step raw with
      | .accept v => .accepted v
      | .reject _ => runLoopStream step rest
    | .eof =>
      match step "" with
      | .accept v => .accepted v
      | .reject _ => runLoopStream step rest

/-- One attempt of `prompt_bool` (lib.rs lines 91-111).  In numeric mode the
line is parsed as a `u8`; in token mode the normalized line is compared with
the fixed tokens. -/
def promptBoolStep (numeric : Bool) (line : String) : StepResult Bool :=
  let l := normalize line
  if numeric then
    match parseU8 l with
    | some n =>
      if n = 1 then .accept true
      else if n = 0 then .accept false
      else .reject ["ENTER 1 (YES) OR 0 (NO)"]
    | none => .reject ["ENTER A NUMBER (1 OR 0)"]
  else
    if l = "YES" ∨ l = "Y" then .accept true
    else if l = "NO" ∨ l = "N" then .accept false
    else .reject ["ENTER (Y)ES OR (N)O"]

/-- `prompt_bool` (lib.rs lines 91-111). -/
def prompt_bool (msg : String) (numeric : Bool) :
    List String → Option (Bool × List String) :=
  runLoop msg (promptBoolStep numeric)

/-- `prompt_string` (lib.rs lines 83-86): print the message and return the
next normalized line unconditionally. -/
def prompt_string (msg : String) : List String → Option (String × List String) :=
  runLoop msg (fun line => .accept (normalize line))

/-- One attempt of `prompt_number` (lib.rs lines 114-122). -/
def promptNumberStep {α : Type} (parse : String → Option α) (line : String) :
    StepResult α :=
  match parse (normalize line) with
  | some n => .accept n
  | none => .reject ["ENTER A VALID NUMBER"]

/-- `prompt_number` (lib.rs lines 114-122). -/
def prompt_number {α : Type} (parse : String → Option α) (msg : String) :
    List String → Option (α × List String) :=
  runLoop msg (promptNumberStep parse)

/-- One attempt of `prompt_number_range` (lib.rs lines 125-145).  The bounds
`lo`, `hi` are the `start()` and `end()` of the Rust `RangeInclusive`, and
`range.contains(&n)` is `lo ≤ n ∧ n ≤ hi`. -/
def promptNumberRangeStep {α : Type} [LinearOrder α] (parse : String → Option α)
    (fmt : α → String) (lo hi : α) (line : String) : StepResult α :=
  match parse (normalize line) with
  | some n =>
    if lo ≤ n ∧ n ≤ hi then .accept n
    else .reject ["ENTER A NUMBER WITHIN " ++ fmt lo ++ ", AND " ++ fmt hi]
  | none => .reject ["ENTER A VALID NUMBER"]

/-- `prompt_number_range` (lib.rs lines 125-145). -/
def prompt_number_range {α : Type} [LinearOrder α] (parse : String → Option α)
    (fmt : α → String) (msg : String) (lo hi : α) :
    List String → Option (α × List String) :=
  runLoop msg (promptNumberRangeStep parse fmt lo hi)

/-- `PromptMultiOption` (lib.rs lines 150-153): either an exact element count
or an inclusive count range (`RangeInclusive<usize>` becomes two `Nat`s). -/
inductive PromptMultiOption where
  | UnitAmount : Nat → PromptMultiOption
  | UnitAmountRange : Nat → Nat → PromptMultiOption
deriving DecidableEq, Repr

/-- `check_multi_option` (lib.rs lines 155-180): the `Bool` is its return
value, the list is what it prints (one diagnostic on rejection, nothing on
acceptance). -/
def check_multi_option (o : PromptMultiOption) (l : Nat) : Bool × List String :=
  match o with
  | .UnitAmount a =>
    if l = a then (true, [])
    else (false, ["THERE MUST BE " ++ toString a ++ " UNITS"])
  | .UnitAmountRange lo hi =>
    if lo ≤ l ∧ l ≤ hi then (true, [])
    else (false, ["AMOUNT OF UNITS MUST BE WITHIN " ++ toString lo ++ " AND " ++ toString hi])

/-- The first argument is an initial segment of the second (Rust's substring
match at the current scan position). -/
def beginsWith : List Char → List Char → Bool
  | [], _ => true
  | _ :: _, [] => false
  | a :: as, b :: bs => a == b && beginsWith as bs

/-- Worker for Rust `str::split` with a nonempty separator: scan left to
right, cut a piece at each separator occurrence and skip the matched text.
`fuel` only bounds the recursion; `rustSplit` supplies fuel that cannot run
out (each step consumes at least one character). -/
def splitFuel (sep : List Char) : Nat → List Char → List Char → List (List Char)
  | 0, l, acc => [acc.reverse ++ l]
  | _ + 1, [], acc => [acc.reverse]
  | fuel + 1, c :: rest, acc =>
    if sep ≠ [] ∧ beginsWith sep (c :: rest) = true then
      acc.reverse :: splitFuel sep fuel (List.drop sep.length (c :: rest)) []
    else
      splitFuel sep fuel rest (c :: acc)

/-- Rust `str::split` on a literal substring separator, as documented for
`str`: with a nonempty separator, the pieces between consecutive separator
occurrences (empty pieces included); with the empty separator, a split at
every character boundary, including the start and the end of the string
(std example: `"rust".split("")` is `["", "r", "u", "s", "t", ""]`). -/
def rustSplit (sep s : String) : List String :=
  if sep.data = [] then
    "" :: (s.data.map fun c => String.mk [c]) ++ [""]
  else
    (splitFuel sep.data s.data.length s.data []).map String.mk

/-- One attempt of `prompt_multi_string` (lib.rs lines 185-204): split the
normalized line on the separator, then apply the count check if one was
supplied; the pieces are returned verbatim. -/
def promptMultiStringStep (sep : String) (option : Option PromptMultiOption)
    (line : String) : StepResult (List String) :=
  let input := rustSplit sep (normalize line)
  match option with
  | some o =>
    match check_multi_option o input.length with
    | (true, _) => .accept input
    | (false, out) => .reject out
  | none => .accept input

/-- `prompt_multi_string` (lib.rs lines 185-204). -/
def prompt_multi_string (msg sep : String) (option : Option PromptMultiOption) :
    List String → Option (List String × List String) :=
  runLoop msg (promptMultiStringStep sep option)

/-- The element scan of `prompt_multi_number` (lib.rs lines 235-256): parse
each piece in order, range-check it as it is produced when a range was
supplied, and stop at the first failure with the diagnostic printed there
(the values pushed before the failure are discarded by the caller); on
success return all parsed values in input order. -/
def parseAll {α : Type} [LinearOrder α] (parse : String → Option α)
    (fmt : α → String) (range : Option (α × α)) :
    List String → Except String (List α)
  | [] => .ok []
  | i :: rest =>
    match parse i with
    | some n =>
      match range with
      | some (lo, hi) =>
        if lo ≤ n ∧ n ≤ hi then
          match parseAll parse fmt range rest with
          | .ok ns => .ok (n :: ns)
          | .error e => .error e
        else .error ("NUMBER MUST BE WITHIN " ++ fmt lo ++ " AND " ++ fmt hi)
      | none =>
        match parseAll parse fmt range rest with
        | .ok ns => .ok (n :: ns)
        | .error e => .error e
    | none => .error "ENTER ONLY NUMBERS"

/-- One attempt of `prompt_multi_number` (lib.rs lines 211-263): split the
normalized line, run the count check if a count option was supplied, and only
if it passes scan the pieces; accept only when every piece parses and is in
range. -/
def promptMultiNumberStep {α : Type} [LinearOrder α] (parse : String → Option α)
    (fmt : α → String) (sep : String) (option : Option PromptMultiOption)
    (range : Option (α × α)) (line : String) : StepResult (List α) :=
  let input := rustSplit sep (normalize line)
  match option with
  | some o =>
    match check_multi_option o input.length with
    | (true, _) =>
      match parseAll parse fmt range input with
      | .ok ns => .accept ns
      | .error d => .reject [d]
    | (false, out) => .reject out
  | none =>
    match parseAll parse fmt range input with
    | .ok ns => .accept ns
    | .error d => .reject [d]

/-- `prompt_multi_number` (lib.rs lines 211-263). -/
def prompt_multi_number {α : Type} [LinearOrder α] (parse : String → Option α)
    (fmt : α → String) (msg sep : String) (option : Option PromptMultiOption)
    (range : Option (α × α)) : List String → Option (List α × List String) :=
  runLoop msg (promptMultiNumberStep parse fmt sep option range)

/-- The count check as `prompt_multi_number` applies it (lib.rs lines
226-230): trivially true when no option was supplied. -/
def countOk (option : Option PromptMultiOption) (n : Nat) : Bool :=
  match option with
  | some o => (check_multi_option o n).1
  | none => true

/-- `range.contains(&n)` for the optional per-element range of
`prompt_multi_number`: trivially true when no range was supplied. -/
def rangeContains {α : Type} [LinearOrder α] (range : Option (α × α)) (n : α) : Prop :=
  match range with
  | some (lo, hi) => lo ≤ n ∧ n ≤ hi
  | none => True

/-! ### Basic lemmas about the retry loop -/

theorem runLoop_nil {α : Type} (msg : String) (step : String → StepResult α) :
    runLoop msg step [] = none := rfl

theorem runLoop_cons_accept {α : Type} {msg : String} {step : String → StepResult α}
    {line : String} {v : α} (rest : List String) (h : step line = .accept v) :
    runLoop msg step (line :: rest) = some (v, [msg]) := by
  simp [runLoop, h]

theorem runLoop_cons_reject {α : Type} {msg : String} {step : String → StepResult α}
    {line : String} {out : List String} (rest : List String) (h : step line = .reject out) :
    runLoop msg step (line :: rest)
      = (runLoop msg step rest).map fun p => (p.1, msg :: out ++ p.2) := by
  simp [runLoop, h]

theorem runLoop_none_iff {α : Type} (msg : String) (step : String → StepResult α)
    (lines : List String) :
    runLoop msg step lines = none ↔ ∀ l ∈ lines, ∃ out, step l = .reject out := by
  induction lines with
  | nil => simp [runLoop]
  | cons a as ih =>
    cases ha : step a with
    | accept v => simp [runLoop, ha]
    | reject d => simp [runLoop, ha, ih]

theorem runLoop_some_mem {α : Type} {msg : String} {step : String → StepResult α} :
    ∀ {lines : List String} {v : α} {o : List String},
      runLoop msg step lines = some (v, o) → ∃ l ∈ lines, step l = .accept v := by
  intro lines
  induction lines with
  | nil => intro v o h; simp [runLoop] at h
  | cons a as ih =>
    intro v o h
    cases ha : step a with
    | accept w =>
      rw [runLoop_cons_accept as ha] at h
      obtain ⟨hv, _⟩ := Prod.mk.injEq .. ▸ Option.some.inj h
      exact ⟨a, by simp, hv ▸ ha⟩
    | reject d =>
      rw [runLoop_cons_reject as ha] at h
      cases hrec : runLoop msg step as with
      | none => rw [hrec] at h; simp at h
      | some p =>
        rw [hrec] at h
        simp only [Option.map_some'] at h
        obtain ⟨hv, _⟩ := Prod.mk.injEq .. ▸ Option.some.inj h
        have hrec2 : runLoop msg step as = some (v, p.2) := by rw [hrec, ← hv]
        obtain ⟨l, hl, hstep⟩ := ih hrec2
        exact ⟨l, by simp [hl], hstep⟩

theorem runLoop_some_out_ne_nil {α : Type} {msg : String} {step : String → StepResult α} :
    ∀ {lines : List String} {v : α} {o : List String},
      runLoop msg step lines = some (v, o) → o ≠ [] := by
  intro lines
  induction lines with
  | nil => intro v o h; simp [runLoop] at h
  | cons a as ih =>
    intro v o h
    cases ha : step a with
    | accept w =>
      rw [runLoop_cons_accept as ha] at h
      obtain ⟨_, ho⟩ := Prod.mk.injEq .. ▸ Option.some.inj h
      simp [← ho]
    | reject d =>
      rw [runLoop_cons_reject as ha] at h
      cases hrec : runLoop msg step as with
      | none => rw [hrec] at h; simp at h
      | some p =>
        rw [hrec] at h
        simp only [Option.map_some'] at h
        obtain ⟨_, ho⟩ := Prod.mk.injEq .. ▸ Option.some.inj h
        simp [← ho]

theorem runLoop_append_of_some {α : Type} {msg : String} {step : String → StepResult α} :
    ∀ {lines : List String} {r : α × List String},
      runLoop msg step lines = some r →
      ∀ more : List String, runLoop msg step (lines ++ more) = some r := by
  intro lines
  induction lines with
  | nil => intro r h; simp [runLoop] at h
  | cons a as ih =>
    intro r h more
    cases ha : step a with
    | accept w =>
      rw [runLoop_cons_accept as ha] at h
      rw [List.cons_append, runLoop_cons_accept (as ++ more) ha]
      exact h
    | reject d =>
      rw [runLoop_cons_reject as ha] at h
      rw [List.cons_append, runLoop_cons_reject (as ++ more) ha]
      cases hrec : runLoop msg step as with
      | none => rw [hrec] at h; simp at h
      | some p =>
        rw [hrec] at h
        rw [ih hrec more]
        exact h

/-! ### Lemmas about the element scan of `prompt_multi_number` -/

theorem rangeContains_none {α : Type} [LinearOrder α] (n : α) :
    rangeContains none n = True := rfl

theorem rangeContains_some {α : Type} [LinearOrder α] (lo hi n : α) :
    rangeContains (some (lo, hi)) n = (lo ≤ n ∧ n ≤ hi) := rfl

theorem parseAll_ok_of {α : Type} [LinearOrder α] (parse : String → Option α)
    (fmt : α → String) (range : Option (α × α)) :
    ∀ l : List String, (∀ i ∈ l, ∃ n, parse i = some n ∧ rangeContains range n) →
      parseAll parse fmt range l = .ok (l.filterMap parse) := by
  intro l
  induction l with
  | nil => intro _; rfl
  | cons i rest ih =>
    intro h
    obtain ⟨n, hn, hr⟩ := h i (by simp)
    have hrest := ih fun j hj => h j (by simp [hj])
    cases range with
    | none => simp [parseAll, hn, hrest, List.filterMap_cons]
    | some p =>
      obtain ⟨lo, hi⟩ := p
      rw [rangeContains_some] at hr
      simp [parseAll, hn, hrest, if_pos hr, List.filterMap_cons]

theorem parseAll_ok_implies {α : Type} [LinearOrder α] {parse : String → Option α}
    {fmt : α → String} {range : Option (α × α)} :
    ∀ {l : List String} {vals : List α}, parseAll parse fmt range l = .ok vals →
      (∀ i ∈ l, ∃ n, parse i = some n ∧ rangeContains range n) ∧
        vals = l.filterMap parse := by
  intro l
  induction l with
  | nil =>
    intro vals h
    simp [parseAll] at h
    simp [← h]
  | cons i rest ih =>
    intro vals h
    cases hn : parse i with
    | none => simp [parseAll, hn] at h
    | some n =>
      cases range with
      | none =>
        cases hrec : parseAll parse fmt none rest with
        | error e => simp [parseAll, hn, hrec] at h
        | ok ns =>
          simp [parseAll, hn, hrec] at h
          obtain ⟨hall, hvals⟩ := ih hrec
          refine ⟨?_, ?_⟩
          · intro j hj
            rcases List.mem_cons.mp hj with hj | hj
            · exact ⟨n, hj ▸ hn, trivial⟩
            · exact hall j hj
          · simp [← h, List.filterMap_cons, hn, hvals]
      | some p =>
        obtain ⟨lo, hi⟩ := p
        by_cases hin : lo ≤ n ∧ n ≤ hi
        · cases hrec : parseAll parse fmt (some (lo, hi)) rest with
          | error e => simp [parseAll, hn, if_pos hin, hrec] at h
          | ok ns =>
            simp [parseAll, hn, if_pos hin, hrec] at h
            obtain ⟨hall, hvals⟩ := ih hrec
            refine ⟨?_, ?_⟩
            · intro j hj
              rcases List.mem_cons.mp hj with hj | hj
              · exact ⟨n, hj ▸ hn, by rw [rangeContains_some]; exact hin⟩
              · exact hall j hj
            · simp [← h, List.filterMap_cons, hn, hvals]
        · simp [parseAll, hn, if_neg hin] at h

theorem parseAll_ok_length {α : Type} [LinearOrder α] {parse : String → Option α}
    {fmt : α → String} {range : Option (α × α)} :
    ∀ {l : List String} {vals : List α}, parseAll parse fmt range l = .ok vals →
      vals.length = l.length := by
  intro l
  induction l with
  | nil => intro vals h; simp [parseAll] at h; simp [← h]
  | cons i rest ih =>
    intro vals h
    cases hn : parse i with
    | none => simp [parseAll, hn] at h
    | some n =>
      cases range with
      | none =>
        cases hrec : parseAll parse fmt none rest with
        | error e => simp [parseAll, hn, hrec] at h
        | ok ns =>
          simp [parseAll, hn, hrec] at h
          simp [← h, ih hrec]
      | some p =>
        obtain ⟨lo, hi⟩ := p
        by_cases hin : lo ≤ n ∧ n ≤ hi
        · cases hrec : parseAll parse fmt (some (lo, hi)) rest with
          | error e => simp [parseAll, hn, if_pos hin, hrec] at h
          | ok ns =>
            simp [parseAll, hn, if_pos hin, hrec] at h
            simp [← h, ih hrec]
        · simp [parseAll, hn, if_neg hin] at h

theorem parseAll_err_of_bad_parse {α : Type} [LinearOrder α] {parse : String → Option α}
    {fmt : α → String} {range : Option (α × α)} :
    ∀ (pre : List String) {bad : String} (suf : List String),
      (∀ i ∈ pre, ∃ n, parse i = some n ∧ rangeContains range n) →
      parse bad = none →
      parseAll parse fmt range (pre ++ bad :: suf) = .error "ENTER ONLY NUMBERS" := by
  intro pre
  induction pre with
  | nil => intro bad suf _ hbad; simp [parseAll, hbad]
  | cons p ps ih =>
    intro bad suf h hbad
    obtain ⟨n, hn, hr⟩ := h p (by simp)
    have h2 := ih suf (fun j hj => h j (by simp [hj])) hbad
    cases range with
    | none => simp [parseAll, hn, h2]
    | some q =>
      obtain ⟨lo, hi⟩ := q
      rw [rangeContains_some] at hr
      simp [parseAll, hn, if_pos hr, h2]

theorem parseAll_err_of_out_of_range {α : Type} [LinearOrder α] {parse : String → Option α}
    {fmt : α → String} {lo hi : α} :
    ∀ (pre : List String) {bad : String} (suf : List String) {n : α},
      (∀ i ∈ pre, ∃ m, parse i = some m ∧ rangeContains (some (lo, hi)) m) →
      parse bad = some n → ¬(lo ≤ n ∧ n ≤ hi) →
      parseAll parse fmt (some (lo, hi)) (pre ++ bad :: suf)
        = .error ("NUMBER MUST BE WITHIN " ++ fmt lo ++ " AND " ++ fmt hi) := by
  intro pre
  induction pre with
  | nil => intro bad suf n _ hbad hout; simp [parseAll, hbad, if_neg hout]
  | cons p ps ih =>
    intro bad suf n h hbad hout
    obtain ⟨m, hm, hr⟩ := h p (by simp)
    have h2 := ih suf (fun j hj => h j (by simp [hj])) hbad hout
    rw [rangeContains_some] at hr
    simp [parseAll, hm, if_pos hr, h2]

/-! ### Lemmas about normalization and `u8` parsing -/

theorem dropWhile_eq_self_of {p : Char → Bool} :
    ∀ l : List Char, (∀ c ∈ l, p c = false) → l.dropWhile p = l := by
  intro l h
  cases l with
  | nil => rfl
  | cons c t => simp [List.dropWhile_cons, h c (by simp)]

theorem map_eq_self_of {f : Char → Char} :
    ∀ l : List Char, (∀ c ∈ l, f c = c) → l.map f = l := by
  intro l
  induction l with
  | nil => intro _; rfl
  | cons c t ih =>
    intro h
    rw [List.map_cons, h c (by simp), ih fun d hd => h d (by simp [hd])]

theorem normalize_eq_self {s : String}
    (h : ∀ c ∈ s.data, isWs c = false ∧ upperChar c = c) : normalize s = s := by
  unfold normalize
  rw [dropWhile_eq_self_of s.data fun c hc => (h c hc).1]
  rw [dropWhile_eq_self_of s.data.reverse fun c hc => (h c (List.mem_reverse.mp hc)).1]
  rw [List.reverse_reverse]
  rw [map_eq_self_of s.data fun c hc => (h c hc).2]

theorem digit_not_ws {c : Char} (h : isAsciiDigit c = true) : isWs c = false := by
  simp only [isAsciiDigit, Bool.and_eq_true, decide_eq_true_eq] at h
  simp only [isWs, Bool.or_eq_false_iff, decide_eq_false_iff_not]
  omega

theorem digit_upper_fix {c : Char} (h : isAsciiDigit c = true) : upperChar c = c := by
  simp only [isAsciiDigit, Bool.and_eq_true, decide_eq_true_eq] at h
  unfold upperChar
  rw [if_neg]
  omega

theorem normalize_digits {s : String} (h : s.data.all isAsciiDigit = true) :
    normalize s = s :=
  normalize_eq_self fun c hc =>
    ⟨digit_not_ws (List.all_eq_true.mp h c hc), digit_upper_fix (List.all_eq_true.mp h c hc)⟩

theorem parseU8_of_digits {s : String} (hne : s.data ≠ [])
    (hall : s.data.all isAsciiDigit = true) :
    parseU8 s = if digitsToNat s.data ≤ 255 then some (digitsToNat s.data) else none := by
  obtain ⟨c, t, hct⟩ := List.exists_cons_of_ne_nil hne
  have hc : isAsciiDigit c = true :=
    List.all_eq_true.mp hall c (by rw [hct]; exact List.mem_cons_self c t)
  have hplus : c ≠ '+' := fun hcp => by
    rw [hcp] at hc
    exact absurd hc (by decide)
  unfold parseU8
  rw [hct]
  rw [List.head?_cons, if_neg fun hh => hplus (Option.some.inj hh)]
  rw [parseNatDigits, if_pos ⟨by simp, hct ▸ hall⟩]

theorem parseU8_none_of_neg {s : String} {t : List Char} (h : s.data = '-' :: t) :
    parseU8 s = none := by
  unfold parseU8
  rw [h]
  rw [List.head?_cons, if_neg (by simp)]
  rw [parseNatDigits, if_neg]
  intro hh
  have := hh.2
  rw [List.all_cons] at this
  simp only [Bool.and_eq_true] at this
  exact absurd this.1 (by decide)

theorem dropWhile_ends {p : Char → Bool} {c : Char} (hc : p c = false) :
    ∀ l : List Char, ∃ r, (l ++ [c]).dropWhile p = r ++ [c] := by
  intro l
  induction l with
  | nil => exact ⟨[], by simp [List.dropWhile_cons, hc]⟩
  | cons a as ih =>
    by_cases ha : p a = true
    · obtain ⟨r, hr⟩ := ih
      exact ⟨r, by simp only [List.cons_append, List.dropWhile_cons, ha, if_true]; exact hr⟩
    · exact ⟨a :: as, by simp [List.dropWhile_cons, ha]⟩

theorem normalize_head {c : Char} {t : List Char} {s : String}
    (hs : s.data = c :: t) (hws : isWs c = false) (hup : upperChar c = c) :
    ∃ z, (normalize s).data = c :: z := by
  unfold normalize
  rw [hs]
  rw [List.dropWhile_cons, if_neg (by simp [hws])]
  rw [List.reverse_cons]
  obtain ⟨r, hr⟩ := dropWhile_ends hws t.reverse
  rw [hr, List.reverse_append]
  refine ⟨r.reverse.map upperChar, ?_⟩
  simp [hup]

/-! ### Lemmas about splitting -/

theorem splitFuel_ne_nil (sep : List Char) :
    ∀ (fuel : Nat) (l acc : List Char), splitFuel sep fuel l acc ≠ [] := by
  intro fuel
  induction fuel with
  | zero => intro l acc; simp [splitFuel]
  | succ f ih =>
    intro l acc
    cases l with
    | nil => simp [splitFuel]
    | cons c rest =>
      simp only [splitFuel]
      split
      · simp
      · exact ih rest (c :: acc)

theorem rustSplit_ne_nil (sep s : String) : rustSplit sep s ≠ [] := by
  unfold rustSplit
  split
  · simp
  · intro h
    exact splitFuel_ne_nil sep.data s.data.length s.data [] (by simpa using h)

theorem rustSplit_empty_line {sep : String} (h : sep ≠ "") : rustSplit sep "" = [""] := by
  have hd : sep.data ≠ [] := by
    intro hh
    apply h
    cases sep with
    | mk l =>
      have hl : l = [] := hh
      rw [hl]
  unfold rustSplit
  rw [if_neg hd]
  rfl

/-! ### Characterizing one attempt of the multi-value prompts -/

theorem multiNumberStep_accept_implies {α : Type} [LinearOrder α]
    {parse : String → Option α} {fmt : α → String} {sep : String}
    {option : Option PromptMultiOption} {range : Option (α × α)} {line : String}
    {vals : List α}
    (h : promptMultiNumberStep parse fmt sep option range line = .accept vals) :
    countOk option (rustSplit sep (normalize line)).length = true ∧
    (∀ i ∈ rustSplit sep (normalize line), ∃ n, parse i = some n ∧ rangeContains range n) ∧
    vals = (rustSplit sep (normalize line)).filterMap parse := by
  unfold promptMultiNumberStep at h
  cases option with
  | none =>
    cases hpa : parseAll parse fmt range (rustSplit sep (normalize line)) with
    | error d => simp [hpa] at h
    | ok ns =>
      simp only [hpa] at h
      obtain ⟨hall, hvals⟩ := parseAll_ok_implies hpa
      cases h
      exact ⟨rfl, hall, hvals⟩
  | some o =>
    rcases hc : check_multi_option o (rustSplit sep (normalize line)).length with ⟨b, out⟩
    cases b with
    | false => simp [hc] at h
    | true =>
      simp only [hc] at h
      cases hpa : parseAll parse fmt range (rustSplit sep (normalize line)) with
      | error d => simp [hpa] at h
      | ok ns =>
        simp only [hpa] at h
        obtain ⟨hall, hvals⟩ := parseAll_ok_implies hpa
        cases h
        exact ⟨by simp [countOk, hc], hall, hvals⟩

theorem multiNumberStep_accept_of {α : Type} [LinearOrder α]
    {parse : String → Option α} {fmt : α → String} {sep : String}
    {option : Option PromptMultiOption} {range : Option (α × α)} {line : String}
    (hcount : countOk option (rustSplit sep (normalize line)).length = true)
    (hall : ∀ i ∈ rustSplit sep (normalize line), ∃ n, parse i = some n ∧ rangeContains range n) :
    promptMultiNumberStep parse fmt sep option range line
      = .accept ((rustSplit sep (normalize line)).filterMap parse) := by
  unfold promptMultiNumberStep
  have hpa := parseAll_ok_of parse fmt range _ hall
  cases option with
  | none => simp [hpa]
  | some o =>
    rcases hc : check_multi_option o (rustSplit sep (normalize line)).length with ⟨b, out⟩
    have hb : b = true := by simpa [countOk, hc] using hcount
    subst hb
    simp [hc, hpa]

theorem multiNumberStep_reject_count {α : Type} [LinearOrder α]
    {parse : String → Option α} {fmt : α → String} {sep : String}
    {o : PromptMultiOption} {range : Option (α × α)} {line : String}
    {out : List String}
    (hc : check_multi_option o (rustSplit sep (normalize line)).length = (false, out)) :
    promptMultiNumberStep parse fmt sep (some o) range line = .reject out := by
  unfold promptMultiNumberStep
  simp [hc]

theorem multiNumberStep_reject_err {α : Type} [LinearOrder α]
    {parse : String → Option α} {fmt : α → String} {sep : String}
    {option : Option PromptMultiOption} {range : Option (α × α)} {line : String}
    {d : String}
    (hcount : countOk option (rustSplit sep (normalize line)).length = true)
    (hpa : parseAll parse fmt range (rustSplit sep (normalize line)) = .error d) :
    promptMultiNumberStep parse fmt sep option range line = .reject [d] := by
  unfold promptMultiNumberStep
  cases option with
  | none => simp [hpa]
  | some o =>
    rcases hc : check_multi_option o (rustSplit sep (normalize line)).length with ⟨b, out⟩
    have hb : b = true := by simpa [countOk, hc] using hcount
    subst hb
    simp [hc, hpa]

theorem countOk_some (o : PromptMultiOption) (n : Nat) :
    countOk (some o) n = (check_multi_option o n).1 := rfl

theorem multiStringStep_accept_implies {sep : String} {option : Option PromptMultiOption}
    {line : String} {vals : List String}
    (h : promptMultiStringStep sep option line = .accept vals) :
    vals = rustSplit sep (normalize line) := by
  unfold promptMultiStringStep at h
  cases option with
  | none => cases h; rfl
  | some o =>
    rcases hc : check_multi_option o (rustSplit sep (normalize line)).length with ⟨b, out⟩
    cases b with
    | false => simp [hc] at h
    | true =>
      simp only [hc] at h
      cases h
      rfl

theorem runLoop_cons_reject1 {α : Type} {msg : String} {step : String → StepResult α}
    {line : String} (d : String) (rest : List String) (h : step line = .reject [d]) :
    runLoop msg step (line :: rest)
      = (runLoop msg step rest).map fun p => (p.1, msg :: d :: p.2) := by
  have hh : runLoop msg step (line :: rest)
      = (runLoop msg step rest).map fun p => (p.1, msg :: [d] ++ p.2) :=
    runLoop_cons_reject rest h
  exact hh

theorem runLoop_congr_line {α : Type} {msg : String} {step : String → StepResult α}
    {l1 l2 : String} (rest : List String) (h : step l1 = step l2) :
    runLoop msg step (l1 :: rest) = runLoop msg step (l2 :: rest) := by
  simp only [runLoop]
  rw [h]

/-! ### The claims -/

/-- C3: `prompt_bool` in numeric mode returns `true` on a line parsing (as
`u8`) to 1 and `false` on a line parsing to 0, rejects any other parsed
number with "ENTER 1 (YES) OR 0 (NO)" and a parse failure with
"ENTER A NUMBER (1 OR 0)"; in token mode the normalized line "YES"/"Y"
returns `true`, "NO"/"N" returns `false`, anything else is rejected with
"ENTER (Y)ES OR (N)O"; and the raw line " yes \n" behaves exactly like
"YES" because lines are normalized. -/
theorem spec_C3 (msg line : String) (rest : List String) :
    (parseU8 (normalize line) = some 1 →
      prompt_bool msg true (line :: rest) = some (true, [msg]))
  ∧ (parseU8 (normalize line) = some 0 →
      prompt_bool msg true (line :: rest) = some (false, [msg]))
  ∧ (∀ n, parseU8 (normalize line) = some n → n ≠ 1 → n ≠ 0 →
      prompt_bool msg true (line :: rest)
        = (prompt_bool msg true rest).map
            fun p => (p.1, msg :: "ENTER 1 (YES) OR 0 (NO)" :: p.2))
  ∧ (parseU8 (normalize line) = none →
      prompt_bool msg true (line :: rest)
        = (prompt_bool msg true rest).map
            fun p => (p.1, msg :: "ENTER A NUMBER (1 OR 0)" :: p.2))
  ∧ (normalize line = "YES" ∨ normalize line = "Y" →
      prompt_bool msg false (line :: rest) = some (true, [msg]))
  ∧ (normalize line = "NO" ∨ normalize line = "N" →
      prompt_bool msg false (line :: rest) = some (false, [msg]))
  ∧ (normalize line ≠ "YES" → normalize line ≠ "Y" → normalize line ≠ "NO" →
      normalize line ≠ "N" →
      prompt_bool msg false (line :: rest)
        = (prompt_bool msg false rest).map
            fun p => (p.1, msg :: "ENTER (Y)ES OR (N)O" :: p.2))
  ∧ prompt_bool msg false (" yes \n" :: rest) = prompt_bool msg false ("YES" :: rest)
  ∧ prompt_bool msg true (" yes \n" :: rest) = prompt_bool msg true ("YES" :: rest) := by
  refine ⟨?_, ?_, ?_, ?_, ?_, ?_, ?_, ?_, ?_⟩
  · intro h
    exact runLoop_cons_accept rest (by simp [promptBoolStep, h])
  · intro h
    exact runLoop_cons_accept rest (by simp [promptBoolStep, h])
  · intro n h h1 h0
    exact runLoop_cons_reject1 "ENTER 1 (YES) OR 0 (NO)" rest
      (by simp [promptBoolStep, h, h1, h0])
  · intro h
    exact runLoop_cons_reject1 "ENTER A NUMBER (1 OR 0)" rest (by simp [promptBoolStep, h])
  · intro h
    exact runLoop_cons_accept rest (by simp [promptBoolStep, h])
  · intro h
    refine runLoop_cons_accept rest ?_
    have hne : ¬(normalize line = "YES" ∨ normalize line = "Y") := by
      rcases h with h | h <;> rw [h] <;> decide
    simp [promptBoolStep, hne, h]
  · intro h1 h2 h3 h4
    exact runLoop_cons_reject1 "ENTER (Y)ES OR (N)O" rest
      (by simp [promptBoolStep, h1, h2, h3, h4])
  · exact runLoop_congr_line rest (by decide)
  · exact runLoop_congr_line rest (by decide)

theorem witness_C3 :
    prompt_bool "M" true ["1"] = some (true, ["M"]) ∧
    prompt_bool "M" false ["nah", "no"] = some (false, ["M", "ENTER (Y)ES OR (N)O", "M"]) := by
  constructor
  · exact (spec_C3 "M" "1" []).1 (by decide)
  · have h := (spec_C3 "M" "nah" ["no"]).2.2.2.2.2.2.1 (by decide) (by decide) (by decide)
      (by decide)
    rw [h]
    decide

/-- C4: `prompt_number_range` returns immediately a parsed value inside the
inclusive bounds, prints exactly the one diagnostic
"ENTER A NUMBER WITHIN {low}, AND {high}" and re-prompts on a parsed value
outside them, and prints "ENTER A VALID NUMBER" and re-prompts on a parse
failure. -/
theorem spec_C4 {α : Type} [LinearOrder α] (parse : String → Option α) (fmt : α → String)
    (msg : String) (lo hi : α) (line : String) (rest : List String) :
    (∀ n, parse (normalize line) = some n → lo ≤ n → n ≤ hi →
      prompt_number_range parse fmt msg lo hi (line :: rest) = some (n, [msg]))
  ∧ (∀ n, parse (normalize line) = some n → ¬(lo ≤ n ∧ n ≤ hi) →
      prompt_number_range parse fmt msg lo hi (line :: rest)
        = (prompt_number_range parse fmt msg lo hi rest).map
            fun p =>
              (p.1, msg :: ("ENTER A NUMBER WITHIN " ++ fmt lo ++ ", AND " ++ fmt hi) :: p.2))
  ∧ (parse (normalize line) = none →
      prompt_number_range parse fmt msg lo hi (line :: rest)
        = (prompt_number_range parse fmt msg lo hi rest).map
            fun p => (p.1, msg :: "ENTER A VALID NUMBER" :: p.2)) := by
  refine ⟨?_, ?_, ?_⟩
  · intro n h hlo hhi
    exact runLoop_cons_accept rest
      (by simp [promptNumberRangeStep, h, if_pos (⟨hlo, hhi⟩ : lo ≤ n ∧ n ≤ hi)])
  · intro n h hout
    exact runLoop_cons_reject1 ("ENTER A NUMBER WITHIN " ++ fmt lo ++ ", AND " ++ fmt hi) rest
      (by simp [promptNumberRangeStep, h, if_neg hout])
  · intro h
    exact runLoop_cons_reject1 "ENTER A VALID NUMBER" rest
      (by simp [promptNumberRangeStep, h])

theorem witness_C4 :
    prompt_number_range parseU8 toString "M" 2 5 ["3"] = some (3, ["M"]) ∧
    prompt_number_range parseU8 toString "M" 2 5 ["9", "3"]
      = some (3, ["M", "ENTER A NUMBER WITHIN 2, AND 5", "M"]) := by
  constructor
  · exact (spec_C4 parseU8 toString "M" 2 5 "3" []).1 3 (by decide) (by decide) (by decide)
  · have h := (spec_C4 parseU8 toString "M" 2 5 "9" ["3"]).2.1 9 (by decide) (by decide)
    rw [h]
    decide

/-- C6: `check_multi_option` accepts exactly when the observed element count
equals the exact target, respectively lies in the inclusive count range; it
prints nothing on acceptance and exactly one diagnostic line on rejection —
"THERE MUST BE {target} UNITS" for the exact variant and the bound message
for the range variant — and it returns a boolean, never failing fatally
(it is a total function). -/
theorem spec_C6 (o : PromptMultiOption) (l : Nat) :
    ((check_multi_option o l).1 = true ↔
      (match o with
       | .UnitAmount a => l = a
       | .UnitAmountRange lo hi => lo ≤ l ∧ l ≤ hi))
  ∧ ((check_multi_option o l).1 = true → (check_multi_option o l).2 = [])
  ∧ ((check_multi_option o l).1 = false → (check_multi_option o l).2.length = 1)
  ∧ (∀ a, o = .UnitAmount a → (check_multi_option o l).1 = false →
      (check_multi_option o l).2 = ["THERE MUST BE " ++ toString a ++ " UNITS"])
  ∧ (∀ lo hi, o = .UnitAmountRange lo hi → (check_multi_option o l).1 = false →
      (check_multi_option o l).2
        = ["AMOUNT OF UNITS MUST BE WITHIN " ++ toString lo ++ " AND " ++ toString hi]) := by
  cases o with
  | UnitAmount a =>
    by_cases h : l = a
    · simp [check_multi_option, h]
    · simp [check_multi_option, h]
  | UnitAmountRange lo hi =>
    by_cases h : lo ≤ l ∧ l ≤ hi
    · simp [check_multi_option, h]
    · simp [check_multi_option, h]

theorem witness_C6 :
    (check_multi_option (.UnitAmount 3) 2).1 = false ∧
    (check_multi_option (.UnitAmount 3) 2).2 = ["THERE MUST BE 3 UNITS"] ∧
    (check_multi_option (.UnitAmountRange 1 3) 2).1 = true := by
  have h := spec_C6 (.UnitAmount 3) 2
  refine ⟨by decide, ?_, by decide⟩
  have h4 := h.2.2.2.1 3 rfl (by decide)
  rw [h4]
  decide

theorem runLoopStream_eof_spin {α : Type} {step : String → StepResult α} {d : List String}
    (h : step "" = .reject d) :
    ∀ n, runLoopStream step (List.replicate n ReadOutcome.eof) = .running := by
  intro n
  induction n with
  | zero => rfl
  | succ k ih => simp [List.replicate_succ, runLoopStream, h, ih]

theorem runLoopStream_accepted {α : Type} {step : String → StepResult α} :
    ∀ {outcomes : List ReadOutcome} {v : α},
      runLoopStream step outcomes = .accepted v →
      (∃ raw, ReadOutcome.line raw ∈ outcomes ∧ step raw = .accept v) ∨
        step "" = .accept v := by
  intro outcomes
  induction outcomes with
  | nil => intro v h; simp [runLoopStream] at h
  | cons o rest ih =>
    intro v h
    cases o with
    | ioError => simp [runLoopStream] at h
    | line raw =>
      cases hs : step raw with
      | accept w =>
        simp [runLoopStream, hs] at h
        exact Or.inl ⟨raw, by simp, by rw [hs, h]⟩
      | reject d =>
        simp only [runLoopStream, hs] at h
        rcases ih h with ⟨raw2, hm, ha⟩ | hempty
        · exact Or.inl ⟨raw2, by simp [hm], ha⟩
        · exact Or.inr hempty
    | eof =>
      obtain ⟨w, hs⟩ | ⟨d, hs⟩ :
          (∃ w, step "" = .accept w) ∨ (∃ d, step "" = .reject d) := by
        cases hstep : step "" with
        | accept w => exact Or.inl ⟨w, rfl⟩
        | reject d => exact Or.inr ⟨d, rfl⟩
      · simp only [runLoopStream, hs] at h
        have hwv : w = v := by simpa using h
        rw [hwv] at hs
        exact Or.inr hs
      · simp only [runLoopStream, hs] at h
        rcases ih h with ⟨raw2, hm, ha⟩ | hempty
        · exact Or.inl ⟨raw2, by simp [hm], ha⟩
        · exact Or.inr hempty

theorem runLoopStream_panicked {α : Type} {step : String → StepResult α} :
    ∀ {outcomes : List ReadOutcome},
      runLoopStream step outcomes = .panicked → ReadOutcome.ioError ∈ outcomes := by
  intro outcomes
  induction outcomes with
  | nil => intro h; simp [runLoopStream] at h
  | cons o rest ih =>
    intro h
    cases o with
    | ioError => simp
    | line raw =>
      cases hs : step raw with
      | accept w => simp [runLoopStream, hs] at h
      | reject d =>
        simp only [runLoopStream, hs] at h
        exact List.mem_cons_of_mem _ (ih h)
    | eof =>
      cases hs : step "" with
      | accept w => simp [runLoopStream, hs] at h
      | reject d =>
        simp only [runLoopStream, hs] at h
        exact List.mem_cons_of_mem _ (ih h)

theorem runLoopStream_of_runLoop {α : Type} {msg : String} {step : String → StepResult α} :
    ∀ {raws : List String} {v : α} {out : List String},
      runLoop msg step raws = some (v, out) →
      runLoopStream step (raws.map ReadOutcome.line) = .accepted v := by
  intro raws
  induction raws with
  | nil => intro v out h; simp [runLoop] at h
  | cons a rest ih =>
    intro v out h
    cases ha : step a with
    | accept w =>
      rw [runLoop_cons_accept rest ha] at h
      obtain ⟨hv, _⟩ := Prod.mk.injEq .. ▸ Option.some.inj h
      simp [runLoopStream, ha, hv]
    | reject d =>
      rw [runLoop_cons_reject rest ha] at h
      cases hrec : runLoop msg step rest with
      | none => rw [hrec] at h; simp at h
      | some p =>
        rw [hrec] at h
        simp only [Option.map_some'] at h
        obtain ⟨hv, _⟩ := Prod.mk.injEq .. ▸ Option.some.inj h
        have hrec2 : runLoop msg step rest = some (v, p.2) := by rw [hrec, ← hv]
        simp only [List.map_cons, runLoopStream, ha]
        exact ih hrec2

/-- C7 (amended): the line reader fails fatally if and only if the underlying
read returns an I/O error.  A closed/EOF input source is not fatal: there the
underlying read returns `Ok(0)`, `read_line` yields the empty line, and a
loop whose validation rejects the empty line keeps re-prompting, neither
returning nor aborting, however long the closed stream is read.  Callers
still never observe a failure value: an accepted value was produced by the
loop's validation step on a line actually read (a real line or the empty
EOF line), an abort requires an I/O error among the read outcomes, and every
value accepted by the lines-only loop model is accepted on the outcome-level
model as well.  (As originally stated the claim is false: EOF does not
trigger the fatal `expect`, and the EOF spin is a second way a prompt loop
avoids returning — see the counterexample.) -/
theorem spec_C7 {α : Type} (msg : String) (step : String → StepResult α)
    (outcomes : List ReadOutcome) :
    (∀ o, read_line o = none ↔ o = ReadOutcome.ioError)
  ∧ read_line ReadOutcome.eof = some ""
  ∧ (∀ d, step "" = .reject d →
      ∀ n, runLoopStream step (List.replicate n ReadOutcome.eof) = .running)
  ∧ (∀ v, runLoopStream step outcomes = .accepted v →
      (∃ raw, ReadOutcome.line raw ∈ outcomes ∧ step raw = .accept v) ∨
        step "" = .accept v)
  ∧ (runLoopStream step outcomes = .panicked → ReadOutcome.ioError ∈ outcomes)
  ∧ (∀ raws (v : α) out, runLoop msg step raws = some (v, out) →
      runLoopStream step (raws.map ReadOutcome.line) = .accepted v) := by
  refine ⟨?_, by decide, ?_, ?_, ?_, ?_⟩
  · intro o
    cases o <;> simp [read_line]
  · intro d h n
    exact runLoopStream_eof_spin h n
  · intro v h
    exact runLoopStream_accepted h
  · intro h
    exact runLoopStream_panicked h
  · intro raws v out h
    exact runLoopStream_of_runLoop h

/-- C7 as stated is false on the code: on a closed/EOF input source the
underlying read returns `Ok(0)`, so `read_line` returns the empty string
instead of failing fatally, and the numeric boolean prompt loop keeps
re-prompting on the resulting empty lines — it avoids returning without any
fatal failure, for however many reads of the closed stream one observes. -/
theorem counterexample_C7 :
    read_line ReadOutcome.eof = some "" ∧
    read_line ReadOutcome.eof ≠ none ∧
    runLoopStream (promptBoolStep true) (List.replicate 3 ReadOutcome.eof)
      = RunResult.running ∧
    runLoopStream (promptBoolStep true) (List.replicate 3 ReadOutcome.eof)
      ≠ RunResult.panicked := by
  decide

theorem witness_C7 :
    runLoopStream (promptBoolStep true) (List.replicate 2 ReadOutcome.eof)
      = RunResult.running ∧
    runLoopStream (promptBoolStep true) [ReadOutcome.line "1"] = RunResult.accepted true := by
  have h := spec_C7 "M" (promptBoolStep true) [ReadOutcome.line "1"]
  constructor
  · exact h.2.2.1 ["ENTER A NUMBER (1 OR 0)"] (by decide) 2
  · exact h.2.2.2.2.2 ["1"] true ["M"] (by decide)

/-- C8: every prompt loop is a pure function of its arguments and of the
lines it actually consumes, so it is deterministic and stateless across
invocations: once a run of any of the six loops accepts a value (with its
exact sequence of printed lines), feeding the same lines again — regardless
of whatever input follows them — yields the identical result. -/
theorem spec_C8 {α : Type} [LinearOrder α] (parse : String → Option α) (fmt : α → String)
    (msg sep : String) (numeric : Bool) (option : Option PromptMultiOption)
    (range : Option (α × α)) (lo hi : α) (lines more : List String) :
    (∀ r, prompt_string msg lines = some r →
      prompt_string msg (lines ++ more) = some r)
  ∧ (∀ r, prompt_bool msg numeric lines = some r →
      prompt_bool msg numeric (lines ++ more) = some r)
  ∧ (∀ r, prompt_number parse msg lines = some r →
      prompt_number parse msg (lines ++ more) = some r)
  ∧ (∀ r, prompt_number_range parse fmt msg lo hi lines = some r →
      prompt_number_range parse fmt msg lo hi (lines ++ more) = some r)
  ∧ (∀ r, prompt_multi_string msg sep option lines = some r →
      prompt_multi_string msg sep option (lines ++ more) = some r)
  ∧ (∀ r, prompt_multi_number parse fmt msg sep option range lines = some r →
      prompt_multi_number parse fmt msg sep option range (lines ++ more) = some r) :=
  ⟨fun _ h => runLoop_append_of_some h more,
   fun _ h => runLoop_append_of_some h more,
   fun _ h => runLoop_append_of_some h more,
   fun _ h => runLoop_append_of_some h more,
   fun _ h => runLoop_append_of_some h more,
   fun _ h => runLoop_append_of_some h more⟩

theorem witness_C8 :
    prompt_bool "M" true (["1"] ++ ["2"]) = some (true, ["M"]) :=
  (@spec_C8 Nat _ parseU8 toString "M" "," true none none 0 0 ["1"] ["2"]).2.1
    (true, ["M"]) (by decide)

/-- C9: in numeric mode `prompt_bool` parses the line as an 8-bit unsigned
integer: a numeral (digit string) whose value exceeds 255 fails to parse and
takes the parse-failure branch printing "ENTER A NUMBER (1 OR 0)", as does
any line starting with a minus sign (negative numerals are not accepted by
an unsigned parse), while a numeral with value between 2 and 255 parses
successfully and is rejected with "ENTER 1 (YES) OR 0 (NO)"; in every case
the loop retries on the remaining input. -/
theorem spec_C9 (msg s : String) (rest : List String) :
    (s.data ≠ [] → s.data.all isAsciiDigit = true → 256 ≤ digitsToNat s.data →
      prompt_bool msg true (s :: rest)
        = (prompt_bool msg true rest).map
            fun p => (p.1, msg :: "ENTER A NUMBER (1 OR 0)" :: p.2))
  ∧ (s.data ≠ [] → s.data.all isAsciiDigit = true → 2 ≤ digitsToNat s.data →
      digitsToNat s.data ≤ 255 →
      prompt_bool msg true (s :: rest)
        = (prompt_bool msg true rest).map
            fun p => (p.1, msg :: "ENTER 1 (YES) OR 0 (NO)" :: p.2))
  ∧ (∀ t, s.data = '-' :: t →
      prompt_bool msg true (s :: rest)
        = (prompt_bool msg true rest).map
            fun p => (p.1, msg :: "ENTER A NUMBER (1 OR 0)" :: p.2)) := by
  refine ⟨?_, ?_, ?_⟩
  · intro hne hall hbig
    have hp : parseU8 (normalize s) = none := by
      rw [normalize_digits hall, parseU8_of_digits hne hall, if_neg (by omega)]
    exact runLoop_cons_reject1 "ENTER A NUMBER (1 OR 0)" rest (by simp [promptBoolStep, hp])
  · intro hne hall h2 h255
    have hp : parseU8 (normalize s) = some (digitsToNat s.data) := by
      rw [normalize_digits hall, parseU8_of_digits hne hall, if_pos h255]
    refine runLoop_cons_reject1 "ENTER 1 (YES) OR 0 (NO)" rest ?_
    simp only [promptBoolStep, hp, if_true]
    rw [if_neg (by omega : ¬digitsToNat s.data = 1), if_neg (by omega : ¬digitsToNat s.data = 0)]
  · intro t ht
    obtain ⟨z, hz⟩ := normalize_head ht (by decide) (by decide)
    have hp : parseU8 (normalize s) = none := parseU8_none_of_neg hz
    exact runLoop_cons_reject1 "ENTER A NUMBER (1 OR 0)" rest (by simp [promptBoolStep, hp])

theorem witness_C9 :
    prompt_bool "M" true ["300", "1"] = some (true, ["M", "ENTER A NUMBER (1 OR 0)", "M"]) ∧
    prompt_bool "M" true ["7", "1"] = some (true, ["M", "ENTER 1 (YES) OR 0 (NO)", "M"]) ∧
    prompt_bool "M" true ["-5", "1"] = some (true, ["M", "ENTER A NUMBER (1 OR 0)", "M"]) := by
  refine ⟨?_, ?_, ?_⟩
  · have h := (spec_C9 "M" "300" ["1"]).1 (by decide) (by decide) (by decide)
    rw [h]
    decide
  · have h := (spec_C9 "M" "7" ["1"]).2.1 (by decide) (by decide) (by decide) (by decide)
    rw [h]
    decide
  · have h := (spec_C9 "M" "-5" ["1"]).2.2 ['5'] (by decide)
    rw [h]
    decide

/-- C10: splitting any line (even the empty one) on any separator yields at
least one element, so every sequence returned by `prompt_multi_string` or
`prompt_multi_number` is non-empty; consequently an exact-count constraint
of 0 can never be satisfied and a loop given it accepts no line, never
returning a value. -/
theorem spec_C10 {α : Type} [LinearOrder α] (parse : String → Option α) (fmt : α → String)
    (msg sep : String) (option : Option PromptMultiOption) (range : Option (α × α)) :
    (∀ t s : String, rustSplit t s ≠ [])
  ∧ (∀ lines vals out, prompt_multi_string msg sep option lines = some (vals, out) →
      vals ≠ [])
  ∧ (∀ lines vals out,
      prompt_multi_number parse fmt msg sep option range lines = some (vals, out) →
      vals ≠ [])
  ∧ (∀ lines, prompt_multi_string msg sep (some (.UnitAmount 0)) lines = none)
  ∧ (∀ lines,
      prompt_multi_number parse fmt msg sep (some (.UnitAmount 0)) range lines = none) := by
  have hlen : ∀ l : String, (rustSplit sep (normalize l)).length ≠ 0 := by
    intro l hzero
    exact rustSplit_ne_nil sep (normalize l) (List.length_eq_zero.mp hzero)
  have hcheck0 : ∀ l : String,
      check_multi_option (.UnitAmount 0) (rustSplit sep (normalize l)).length
        = (false, ["THERE MUST BE " ++ toString 0 ++ " UNITS"]) := by
    intro l
    simp only [check_multi_option]
    rw [if_neg (hlen l)]
  refine ⟨fun t s => rustSplit_ne_nil t s, ?_, ?_, ?_, ?_⟩
  · intro lines vals out h
    obtain ⟨l, _, hstep⟩ := runLoop_some_mem h
    rw [multiStringStep_accept_implies hstep]
    exact rustSplit_ne_nil sep (normalize l)
  · intro lines vals out h
    obtain ⟨l, _, hstep⟩ := runLoop_some_mem h
    obtain ⟨_, hall, hvals⟩ := multiNumberStep_accept_implies hstep
    obtain ⟨i, t, hit⟩ := List.exists_cons_of_ne_nil (rustSplit_ne_nil sep (normalize l))
    obtain ⟨n, hn, _⟩ := hall i (by rw [hit]; exact List.mem_cons_self i t)
    rw [hvals, hit]
    simp [List.filterMap_cons, hn]
  · intro lines
    refine (runLoop_none_iff msg (promptMultiStringStep sep (some (.UnitAmount 0))) lines).mpr ?_
    intro l _
    refine ⟨["THERE MUST BE " ++ toString 0 ++ " UNITS"], ?_⟩
    unfold promptMultiStringStep
    simp [hcheck0 l]
  · intro lines
    refine (runLoop_none_iff msg
      (promptMultiNumberStep parse fmt sep (some (.UnitAmount 0)) range) lines).mpr ?_
    intro l _
    exact ⟨["THERE MUST BE " ++ toString 0 ++ " UNITS"],
      multiNumberStep_reject_count (hcheck0 l)⟩

theorem witness_C10 :
    prompt_multi_string "M" "," (some (.UnitAmount 0)) ["a", "b"] = none ∧
    (["A"] : List String) ≠ [] := by
  have h := @spec_C10 Nat _ parseU8 toString "M" "," none none
  exact ⟨h.2.2.2.1 ["a", "b"], h.2.1 ["a"] ["A"] ["M"] (by decide)⟩

/-- C1: with a count constraint and a per-element range constraint,
`prompt_multi_number` accepts the current line — returning exactly the parsed
values in input order, having printed only the message echo — if and only if
the count check passes, every separator-split piece parses, and every parsed
value lies in the inclusive range; and when the count check passes but the
scan meets a value outside the range (all earlier pieces parsing to in-range
values), it prints "NUMBER MUST BE WITHIN {low} AND {high}", discards the
attempt, and retries the whole loop on the remaining lines. -/
theorem spec_C1 {α : Type} [LinearOrder α] (parse : String → Option α) (fmt : α → String)
    (msg sep : String) (o : PromptMultiOption) (lo hi : α) (line : String)
    (rest : List String) :
    (∀ input, input = rustSplit sep (normalize line) →
      (((check_multi_option o input.length).1 = true ∧
        (∀ i ∈ input, ∃ n, parse i = some n ∧ lo ≤ n ∧ n ≤ hi))
       ↔ prompt_multi_number parse fmt msg sep (some o) (some (lo, hi)) (line :: rest)
           = some (input.filterMap parse, [msg])))
  ∧ (∀ pre bad suf n, rustSplit sep (normalize line) = pre ++ bad :: suf →
      (check_multi_option o (rustSplit sep (normalize line)).length).1 = true →
      (∀ i ∈ pre, ∃ m, parse i = some m ∧ lo ≤ m ∧ m ≤ hi) →
      parse bad = some n → ¬(lo ≤ n ∧ n ≤ hi) →
      prompt_multi_number parse fmt msg sep (some o) (some (lo, hi)) (line :: rest)
        = (prompt_multi_number parse fmt msg sep (some o) (some (lo, hi)) rest).map
            fun p =>
              (p.1, msg :: ("NUMBER MUST BE WITHIN " ++ fmt lo ++ " AND " ++ fmt hi) :: p.2)) := by
  constructor
  · intro input hinput
    subst hinput
    constructor
    · rintro ⟨hcount, hall⟩
      have hall2 : ∀ i ∈ rustSplit sep (normalize line),
          ∃ n, parse i = some n ∧ rangeContains (some (lo, hi)) n := by
        intro i hi2
        obtain ⟨n, h1, h2, h3⟩ := hall i hi2
        exact ⟨n, h1, by rw [rangeContains_some]; exact ⟨h2, h3⟩⟩
      have hcount2 : countOk (some o) (rustSplit sep (normalize line)).length = true := hcount
      exact runLoop_cons_accept rest (multiNumberStep_accept_of hcount2 hall2)
    · intro h
      have h2 : runLoop msg (promptMultiNumberStep parse fmt sep (some o) (some (lo, hi)))
          (line :: rest) = some ((rustSplit sep (normalize line)).filterMap parse, [msg]) := h
      cases hstep : promptMultiNumberStep parse fmt sep (some o) (some (lo, hi)) line with
      | accept vals =>
        obtain ⟨hcount, hall, _⟩ := multiNumberStep_accept_implies hstep
        refine ⟨hcount, ?_⟩
        intro i hi2
        obtain ⟨n, h1, hin⟩ := hall i hi2
        rw [rangeContains_some] at hin
        exact ⟨n, h1, hin.1, hin.2⟩
      | reject out =>
        rw [runLoop_cons_reject rest hstep] at h2
        cases hrec : runLoop msg
            (promptMultiNumberStep parse fmt sep (some o) (some (lo, hi))) rest with
        | none => rw [hrec] at h2; simp at h2
        | some p =>
          rw [hrec] at h2
          simp only [Option.map_some'] at h2
          obtain ⟨_, ho⟩ := Prod.mk.injEq .. ▸ Option.some.inj h2
          have htail : out ++ p.2 = [] := by
            have hcongr := congrArg List.tail ho
            simpa using hcongr
          have hp2 : p.2 = [] := (List.append_eq_nil.mp htail).2
          have hne := runLoop_some_out_ne_nil
            (show runLoop msg (promptMultiNumberStep parse fmt sep (some o) (some (lo, hi)))
              rest = some (p.1, p.2) by rw [hrec])
          exact absurd hp2 hne
  · intro pre bad suf n hdec hcount hpre hbad hout
    have hpre2 : ∀ i ∈ pre, ∃ m, parse i = some m ∧ rangeContains (some (lo, hi)) m := by
      intro i hi2
      obtain ⟨m, h1, h2, h3⟩ := hpre i hi2
      exact ⟨m, h1, by rw [rangeContains_some]; exact ⟨h2, h3⟩⟩
    have hpa : parseAll parse fmt (some (lo, hi)) (rustSplit sep (normalize line))
        = .error ("NUMBER MUST BE WITHIN " ++ fmt lo ++ " AND " ++ fmt hi) := by
      rw [hdec]
      exact parseAll_err_of_out_of_range pre suf hpre2 hbad hout
    have hcount2 : countOk (some o) (rustSplit sep (normalize line)).length = true := hcount
    exact runLoop_cons_reject1 _ rest (multiNumberStep_reject_err hcount2 hpa)

theorem witness_C1 :
    prompt_multi_number parseU8 toString "M" " " (some (.UnitAmount 2)) (some (0, 10)) ["3 4"]
      = some ([3, 4], ["M"]) ∧
    prompt_multi_number parseU8 toString "M" " " (some (.UnitAmount 2)) (some (0, 10))
        ["3 99", "3 4"]
      = some ([3, 4], ["M", "NUMBER MUST BE WITHIN 0 AND 10", "M"]) := by
  constructor
  · have hcond : (check_multi_option (.UnitAmount 2)
          (rustSplit " " (normalize "3 4")).length).1 = true ∧
        ∀ i ∈ rustSplit " " (normalize "3 4"),
          ∃ n, parseU8 i = some n ∧ 0 ≤ n ∧ n ≤ 10 := by
      refine ⟨by decide, ?_⟩
      intro i hi2
      have hsp : rustSplit " " (normalize "3 4") = ["3", "4"] := by decide
      rw [hsp] at hi2
      rcases List.mem_cons.mp hi2 with h3 | hi3
      · exact ⟨3, by rw [h3]; decide, by decide, by decide⟩
      rcases List.mem_cons.mp hi3 with h4 | hi4
      · exact ⟨4, by rw [h4]; decide, by decide, by decide⟩
      · simp at hi4
    have heq := ((spec_C1 parseU8 toString "M" " " (.UnitAmount 2) 0 10 "3 4" []).1
      (rustSplit " " (normalize "3 4")) rfl).mp hcond
    rw [heq]
    decide
  · have hpre : ∀ i ∈ ["3"], ∃ m : Nat, parseU8 i = some m ∧ 0 ≤ m ∧ m ≤ 10 := by
      intro i hi2
      obtain rfl := List.mem_singleton.mp hi2
      exact ⟨3, by decide, by decide, by decide⟩
    have heq := (spec_C1 parseU8 toString "M" " " (.UnitAmount 2) 0 10 "3 99" ["3 4"]).2
      ["3"] "99" [] 99 (by decide) (by decide) hpre (by decide) (by decide)
    rw [heq]
    decide

/-- C2 (amended): in `prompt_multi_number`, when the count check passes and
the element scan reaches a piece that fails to parse — that is, every earlier
piece parses to a value satisfying the range constraint, if one was given —
exactly the diagnostic "ENTER ONLY NUMBERS" is printed, the entire attempt is
discarded, and the loop retries from a fresh line; moreover any returned
sequence consists exactly of the parsed pieces of the single accepted line,
so no value parsed during a failed attempt ever leaks into a returned
sequence.  (As originally stated the claim is false: a preceding
out-of-range value, or a failing count check, masks a later unparsable piece
and a different diagnostic is printed — see the counterexample.) -/
theorem spec_C2 {α : Type} [LinearOrder α] (parse : String → Option α) (fmt : α → String)
    (msg sep : String) (option : Option PromptMultiOption) (range : Option (α × α))
    (line : String) (rest : List String) :
    (∀ pre bad suf, rustSplit sep (normalize line) = pre ++ bad :: suf →
      countOk option (rustSplit sep (normalize line)).length = true →
      (∀ i ∈ pre, ∃ m, parse i = some m ∧ rangeContains range m) →
      parse bad = none →
      prompt_multi_number parse fmt msg sep option range (line :: rest)
        = (prompt_multi_number parse fmt msg sep option range rest).map
            fun p => (p.1, msg :: "ENTER ONLY NUMBERS" :: p.2))
  ∧ (∀ lines vals out,
      prompt_multi_number parse fmt msg sep option range lines = some (vals, out) →
      ∃ l ∈ lines, vals = (rustSplit sep (normalize l)).filterMap parse) := by
  constructor
  · intro pre bad suf hdec hcount hpre hbad
    have hpa : parseAll parse fmt range (rustSplit sep (normalize line))
        = .error "ENTER ONLY NUMBERS" := by
      rw [hdec]
      exact parseAll_err_of_bad_parse pre suf hpre hbad
    exact runLoop_cons_reject1 _ rest (multiNumberStep_reject_err hcount hpa)
  · intro lines vals out h
    obtain ⟨l, hl, hstep⟩ := runLoop_some_mem h
    obtain ⟨_, _, hvals⟩ := multiNumberStep_accept_implies hstep
    exact ⟨l, hl, hvals⟩

/-- C2 as stated is false on the code: in the call below the piece "X" of the
line "99 x" fails to parse as `u8`, yet the diagnostic printed is
"NUMBER MUST BE WITHIN 0 AND 10" — the range check rejects the earlier piece
"99" first and the scan never reaches "X" — and "ENTER ONLY NUMBERS" is never
printed during the whole run. -/
theorem counterexample_C2 :
    parseU8 "X" = none ∧
    "X" ∈ rustSplit " " (normalize "99 x") ∧
    prompt_multi_number parseU8 toString "M" " " none (some (0, 10)) ["99 x", "3"]
      = some ([3], ["M", "NUMBER MUST BE WITHIN 0 AND 10", "M"]) ∧
    "ENTER ONLY NUMBERS" ∉ ["M", "NUMBER MUST BE WITHIN 0 AND 10", "M"] := by
  decide

theorem witness_C2 :
    prompt_multi_number parseU8 toString "M" " " none none ["1 x", "1 2"]
      = some ([1, 2], ["M", "ENTER ONLY NUMBERS", "M"]) ∧
    ∃ l ∈ ["1 x", "1 2"],
      ([1, 2] : List Nat) = (rustSplit " " (normalize l)).filterMap parseU8 := by
  have hmain := spec_C2 parseU8 toString "M" " " none none "1 x" ["1 2"]
  have hpre : ∀ i ∈ ["1"], ∃ m : Nat, parseU8 i = some m ∧ rangeContains none m := by
    intro i hi2
    obtain rfl := List.mem_singleton.mp hi2
    exact ⟨1, by decide, trivial⟩
  have h1 := hmain.1 ["1"] "X" [] (by decide) (by decide) hpre (by decide)
  have heq : prompt_multi_number parseU8 toString "M" " " none none ["1 x", "1 2"]
      = some ([1, 2], ["M", "ENTER ONLY NUMBERS", "M"]) := by
    rw [h1]
    decide
  exact ⟨heq, hmain.2 ["1 x", "1 2"] [1, 2] ["M", "ENTER ONLY NUMBERS", "M"] heq⟩

/-- C5 (amended): `prompt_multi_string` with no count constraint returns the
normalized line split on the literal separator substring, verbatim and in
order, empty pieces included and with no per-element trimming; an empty line
yields the single-element sequence [""] for every nonempty separator — with
the empty separator Rust's split yields ["", ""] instead — and "A,B,C" on
separator "," gives ["A", "B", "C"]. -/
theorem spec_C5 (msg sep line : String) (rest : List String) :
    (prompt_multi_string msg sep none (line :: rest)
      = some (rustSplit sep (normalize line), [msg]))
  ∧ (sep ≠ "" → rustSplit sep "" = [""])
  ∧ rustSplit "" "" = ["", ""]
  ∧ rustSplit "," "A,B,C" = ["A", "B", "C"]
  ∧ rustSplit "," ",A,," = ["", "A", "", ""]
  ∧ prompt_multi_string "M" "," none ["a, b"] = some (["A", " B"], ["M"]) := by
  refine ⟨?_, rustSplit_empty_line, by decide, by decide, by decide, by decide⟩
  exact runLoop_cons_accept rest rfl

/-- C5 as stated is false on the code for the empty separator: there an empty
line does not split into the single-element sequence [""] — Rust's split with
an empty pattern cuts at every character boundary including both ends, so the
empty line yields ["", ""]. -/
theorem counterexample_C5 :
    prompt_multi_string "M" "" none [""] = some (["", ""], ["M"]) ∧
    (["", ""] : List String) ≠ [""] := by
  decide

theorem witness_C5 :
    rustSplit "," "" = [""] ∧
    prompt_multi_string "M" ";" none ["a;b"] = some (["A", "B"], ["M"]) := by
  refine ⟨(spec_C5 "M" "," "" []).2.1 (by decide), ?_⟩
  rw [(spec_C5 "M" ";" "a;b" []).1]
  decide

end Morristown
